import Mathlib

set_option maxRecDepth 100000

/-!
Verification development for the perspective-warp / justified-layout
repository.  JavaScript numbers are modelled as exact rationals (`ℚ`);
array mutation is modelled by explicit state passing (functions return the
final contents of the arrays the source code mutates in place).
-/

namespace PW

/-- A 2-D point, from `interface Point` in `perspectiveWarp.ts`. -/
structure Point where
  x : ℚ
  y : ℚ
deriving DecidableEq, Repr

/-- An uploaded image as the layout engine sees it: an opaque identity plus
the `aspectRatio` field, the only numeric field `calculateLayout` reads. -/
structure UploadedImage where
  id : Nat
  aspectRatio : ℚ
deriving DecidableEq, Repr

/-- The layout configuration record `LayoutConfig` destructured at the top
of `calculateLayout`. -/
structure LayoutConfig where
  canvasSize : ℚ
  gap : ℚ
  targetRowHeightRatio : ℚ
deriving DecidableEq, Repr

/-- A placement rectangle, from `interface PositionedImage`. -/
structure PositionedImage where
  image : UploadedImage
  x : ℚ
  y : ℚ
  width : ℚ
  height : ℚ
deriving DecidableEq, Repr

/-- The value `targetRowHeight = canvasSize * targetRowHeightRatio` computed
at the start of `calculateLayout`. -/
def targetRowHeight (config : LayoutConfig) : ℚ :=
  config.canvasSize * config.targetRowHeightRatio

/-- The `rowImages.forEach` placement loop inside `processRow`: walk the row
left to right from `currentX`, emitting one rectangle per image and advancing
`currentX` by `width + gap`. -/
def placeRow (gap rowHeight currentY : ℚ) : List UploadedImage → ℚ → List PositionedImage
  | [], _ => []
  | img :: rest, currentX =>
      let w := rowHeight * img.aspectRatio
      ⟨img, currentX, currentY, w, rowHeight⟩ :: placeRow gap rowHeight currentY rest (currentX + w + gap)

/-- The `processRow` helper of `calculateLayout`: finalize one row, returning
the emitted placements together with the updated `currentY`.  An empty row
emits nothing and leaves `currentY` unchanged (the early `return`). -/
def processRow (config : LayoutConfig) (currentY : ℚ) (rowImages : List UploadedImage)
    (isLastRow : Bool) : List PositionedImage × ℚ :=
  if rowImages = [] then ([], currentY)
  else
    let totalAspectRatio := (rowImages.map UploadedImage.aspectRatio).sum
    let totalGapWidth := ((rowImages.length : ℚ) + 1) * config.gap
    let availableWidth := config.canvasSize - totalGapWidth
    let rowHeight0 := availableWidth / totalAspectRatio
    let rowHeight :=
      if isLastRow ∧ rowHeight0 > targetRowHeight config * (3/2) then targetRowHeight config
      else rowHeight0
    (placeRow config.gap rowHeight currentY rowImages config.gap, currentY + rowHeight + config.gap)

/-- The mutable state of the main loop of `calculateLayout`: the placements
accumulated so far, the pending `currentRow`, and `currentY`. -/
structure LayoutState where
  layout : List PositionedImage
  currentRow : List UploadedImage
  currentY : ℚ
deriving DecidableEq, Repr

/-- The quantity
`widthAtTargetHeight = targetRowHeight * Σ aspectRatio + (rowLength + 1) * gap`
computed after pushing each image onto the current row. -/
def widthAtTargetHeight (config : LayoutConfig) (row : List UploadedImage) : ℚ :=
  targetRowHeight config * (row.map UploadedImage.aspectRatio).sum
    + ((row.length : ℚ) + 1) * config.gap

/-- One iteration of the `for (const img of images)` loop in
`calculateLayout`: push the image, and if `widthAtTargetHeight >= canvasSize`
flush the row through `processRow(..., false)`. -/
def calcStep (config : LayoutConfig) (st : LayoutState) (img : UploadedImage) : LayoutState :=
  let row := st.currentRow ++ [img]
  if widthAtTargetHeight config row ≥ config.canvasSize then
    let pr := processRow config st.currentY row false
    ⟨st.layout ++ pr.1, [], pr.2⟩
  else
    ⟨st.layout, row, st.currentY⟩

/-- The justified-layout algorithm `calculateLayout`: fold the per-image step
over the input, then flush a non-empty trailing row as the last row. -/
def calculateLayout (images : List UploadedImage) (config : LayoutConfig) :
    List PositionedImage :=
  if images = [] then []
  else
    let st := images.foldl (calcStep config) ⟨[], [], config.gap⟩
    if st.currentRow = [] then st.layout
    else st.layout ++ (processRow config st.currentY st.currentRow true).1

/-! The Gaussian-elimination solver `solve(A, b)`.  The JavaScript function
mutates the arrays `A` and `b` in place; the embedding passes that state
explicitly: `forwardElim` returns the contents of `A` and `b` after the
elimination loop (the state in which the arrays of the caller are left), and `solve`
runs back substitution on that state, as the source does.  JavaScript
division by a zero pivot yields `Infinity`/`NaN`; in `ℚ` it yields `0`, so
the zero-pivot event is observed separately through `finalPivots`. -/

/-- Read entry `A[i][j]` of a list-of-rows matrix (out of range reads `0`). -/
def matGet (A : List (List ℚ)) (i j : Nat) : ℚ := (A.getD i []).getD j 0

/-- Write entry `A[i][j]` of a list-of-rows matrix (out of range is a no-op,
matching that the source only writes in-range indices). -/
def matSet (A : List (List ℚ)) (i j : Nat) (v : ℚ) : List (List ℚ) :=
  A.set i ((A.getD i []).set j v)

/-- Read entry `b[i]` of a vector. -/
def vecGet (b : List ℚ) (i : Nat) : ℚ := b.getD i 0

/-- The pivot search of `solve`: scan rows `i+1 .. n-1` of column `i`,
keeping the first row whose entry has strictly largest absolute value,
starting from `(|A[i][i]|, i)`. -/
def pivotScan (A : List (List ℚ)) (i n : Nat) : ℚ × Nat :=
  ((List.range n).drop (i + 1)).foldl
    (fun acc k => if |matGet A k i| > acc.1 then (|matGet A k i|, k) else acc)
    (|matGet A i i|, i)

/-- The row-swap loop of `solve`: for `k = i .. n-1` exchange `A[maxRow][k]`
with `A[i][k]`. -/
def swapRowsFrom (A : List (List ℚ)) (i maxRow n : Nat) : List (List ℚ) :=
  ((List.range n).drop i).foldl
    (fun M k =>
      let tmp := matGet M maxRow k
      matSet (matSet M maxRow k (matGet M i k)) i k tmp)
    A

/-- The `b` swap of `solve`: exchange `b[maxRow]` and `b[i]`. -/
def swapVec (b : List ℚ) (i maxRow : Nat) : List ℚ :=
  let tmp := vecGet b maxRow
  (b.set maxRow (vecGet b i)).set i tmp

/-- The elimination loop of `solve` for pivot column `i`: for each row
`k = i+1 .. n-1`, compute `c = -A[k][i] / A[i][i]`, set `A[k][i] = 0`, add
`c * A[i][j]` to `A[k][j]` for `j > i`, and add `c * b[i]` to `b[k]`. -/
def elimBelow (st : List (List ℚ) × List ℚ) (i n : Nat) : List (List ℚ) × List ℚ :=
  ((List.range n).drop (i + 1)).foldl
    (fun st k =>
      let c := -(matGet st.1 k i) / matGet st.1 i i
      let A2 := ((List.range n).drop i).foldl
        (fun M j =>
          if i = j then matSet M k j 0
          else matSet M k j (matGet M k j + c * matGet M i j))
        st.1
      (A2, st.2.set k (vecGet st.2 k + c * vecGet st.2 i)))
    st

/-- The forward phase of `solve`: for each column, pivot search, row swap,
then elimination below.  Returns the final contents of the arrays `A` and
`b` that the source mutates in place. -/
def forwardElim (A : List (List ℚ)) (b : List ℚ) : List (List ℚ) × List ℚ :=
  (List.range A.length).foldl
    (fun st i =>
      let maxRow := (pivotScan st.1 i A.length).2
      elimBelow (swapRowsFrom st.1 i maxRow A.length, swapVec st.2 i maxRow) i A.length)
    (A, b)

/-- The back-substitution phase of `solve`:
`x[i] = (b[i] - Σ_(j>i) A[i][j] * x[j]) / A[i][i]` for `i = n-1` down to `0`,
on the eliminated matrix. -/
def backSub (A : List (List ℚ)) (b : List ℚ) (n : Nat) : List ℚ :=
  (List.range n).reverse.foldl
    (fun x i =>
      let s := (((List.range n).drop (i + 1)).map (fun j => matGet A i j * vecGet x j)).sum
      x.set i ((vecGet b i - s) / matGet A i i))
    (List.replicate n 0)

/-- The solver `solve(A, b)`: forward elimination then back substitution. -/
def solve (A : List (List ℚ)) (b : List ℚ) : List ℚ :=
  let fe := forwardElim A b
  backSub fe.1 fe.2 A.length

/-- The diagonal of the eliminated matrix: exactly the pivot values the
source divides by, both in the elimination loop and in back substitution
(once column `i` is processed, `A[i][i]` is never written again). -/
def finalPivots (A : List (List ℚ)) (b : List ℚ) : List ℚ :=
  (List.range A.length).map (fun i => matGet (forwardElim A b).1 i i)

/-- The two rows that `getHomographyMatrix` pushes onto `A` for one
source/destination point pair. -/
def hRows (s d : Point) : List (List ℚ) :=
  [[d.x, d.y, 1, 0, 0, 0, -s.x * d.x, -s.x * d.y],
   [0, 0, 0, d.x, d.y, 1, -s.y * d.x, -s.y * d.y]]

/-- The two right-hand-side entries pushed onto `b` for one pair. -/
def hRhs (s : Point) : List ℚ := [s.x, s.y]

/-- The estimator `getHomographyMatrix(src, dst)`: build the 8×8 system from the four
point pairs, solve it, and append `h8 = 1`. -/
def getHomographyMatrix (src dst : List Point) : List ℚ :=
  let A := ((List.range 4).map (fun i => hRows (src.getD i ⟨0, 0⟩) (dst.getD i ⟨0, 0⟩))).flatten
  let b := ((List.range 4).map (fun i => hRhs (src.getD i ⟨0, 0⟩))).flatten
  solve A b ++ [1]

/-! The per-pixel body of the inverse-mapping loop of `warpPerspective`
(lines computing `div`, `u`, `v`, the bounds check, and the bilinear
write).  The destination buffer comes from `createImageData`, which
zero-fills, so an untouched pixel is `(0,0,0,0)`.  The source buffer is a
flat RGBA array, modelled as a function from flat index to value. -/

/-- One RGBA destination pixel. -/
structure Pixel where
  r : ℚ
  g : ℚ
  b : ℚ
  a : ℚ
deriving DecidableEq, Repr

/-- The zero-initialized destination pixel produced by `createImageData`. -/
def initPixel : Pixel := ⟨0, 0, 0, 0⟩

/-- The denominator `div = H[6]*x + H[7]*y + 1` of the inverse mapping. -/
def homDiv (H : List ℚ) (x y : ℚ) : ℚ := H.getD 6 0 * x + H.getD 7 0 * y + 1

/-- The source coordinate `u = (H[0]*x + H[1]*y + H[2]) / div`. -/
def srcU (H : List ℚ) (x y : ℚ) : ℚ :=
  (H.getD 0 0 * x + H.getD 1 0 * y + H.getD 2 0) / homDiv H x y

/-- The source coordinate `v = (H[3]*x + H[4]*y + H[5]) / div`. -/
def srcV (H : List ℚ) (x y : ℚ) : ℚ :=
  (H.getD 3 0 * x + H.getD 4 0 * y + H.getD 5 0) / homDiv H x y

/-- The bounds check `u >= 0 && u < sw - 1 && v >= 0 && v < sh - 1`. -/
def inSourceBounds (sw sh : Nat) (u v : ℚ) : Prop :=
  0 ≤ u ∧ u < (sw : ℚ) - 1 ∧ 0 ≤ v ∧ v < (sh : ℚ) - 1

instance (sw sh : Nat) (u v : ℚ) : Decidable (inSourceBounds sw sh u v) := by
  unfold inSourceBounds
  exact inferInstance

/-- The bilinear weighted sum of the four neighbouring source samples of
channel `ch` at `(u, v)`, as in the specification:
`(1-a)(1-b)·P00 + a(1-b)·P10 + (1-a)b·P01 + ab·P11` with `u0 = ⌊u⌋`,
`v0 = ⌊v⌋`, `a = u - u0`, `b = v - v0`, flat index `(v·sw + u)·4 + ch`. -/
def bilinearChannel (sData : Nat → ℚ) (sw : Nat) (u v : ℚ) (ch : Nat) : ℚ :=
  let u0 : ℤ := ⌊u⌋
  let v0 : ℤ := ⌊v⌋
  let a := u - (u0 : ℚ)
  let b := v - (v0 : ℚ)
  (1 - a) * (1 - b) * sData (((v0 * sw + u0) * 4).toNat + ch)
    + a * (1 - b) * sData (((v0 * sw + (u0 + 1)) * 4).toNat + ch)
    + (1 - a) * b * sData ((((v0 + 1) * sw + u0) * 4).toNat + ch)
    + a * b * sData ((((v0 + 1) * sw + (u0 + 1)) * 4).toNat + ch)

/-- The body of the pixel loop of `warpPerspective` for destination pixel
`(x, y)`: inverse-map through `H`, bounds-check, and either bilinearly
interpolate RGB with alpha forced to `255`, or leave the pixel at its
zero-initialized value. -/
def warpPixel (H : List ℚ) (sw sh : Nat) (sData : Nat → ℚ) (x y : Nat) : Pixel :=
  let u := srcU H x y
  let v := srcV H x y
  if inSourceBounds sw sh u v then
    let u0 : ℤ := ⌊u⌋
    let v0 : ℤ := ⌊v⌋
    let u1 := u0 + 1
    let v1 := v0 + 1
    let a := u - (u0 : ℚ)
    let b := v - (v0 : ℚ)
    let ia := 1 - a
    let ib := 1 - b
    let idx00 := ((v0 * sw + u0) * 4).toNat
    let idx10 := ((v0 * sw + u1) * 4).toNat
    let idx01 := ((v1 * sw + u0) * 4).toNat
    let idx11 := ((v1 * sw + u1) * 4).toNat
    { r := ia * ib * sData idx00 + a * ib * sData idx10
        + ia * b * sData idx01 + a * b * sData idx11
      g := ia * ib * sData (idx00 + 1) + a * ib * sData (idx10 + 1)
        + ia * b * sData (idx01 + 1) + a * b * sData (idx11 + 1)
      b := ia * ib * sData (idx00 + 2) + a * ib * sData (idx10 + 2)
        + ia * b * sData (idx01 + 2) + a * b * sData (idx11 + 2)
      a := 255 }
  else initPixel

/-- A placement rectangle lies in the canvas quadrant: all four numeric
fields are non-negative (the `PlacementRect` invariant of the data model). -/
def rectNonneg (p : PositionedImage) : Prop :=
  0 ≤ p.x ∧ 0 ≤ p.y ∧ 0 ≤ p.width ∧ 0 ≤ p.height

instance (p : PositionedImage) : Decidable (rectNonneg p) := by
  unfold rectNonneg
  exact inferInstance

/-- The un-clamped row height of `processRow`:
`availableWidth / totalAspectRatio` with
`availableWidth = canvasSize - (rowLength + 1) * gap`. -/
def rowHeightRaw (config : LayoutConfig) (row : List UploadedImage) : ℚ :=
  (config.canvasSize - ((row.length : ℚ) + 1) * config.gap)
    / (row.map UploadedImage.aspectRatio).sum

/-- The row height `processRow` actually uses: the raw height, clamped to
`targetRowHeight` when this is the last row and the raw height exceeds
`targetRowHeight * 1.5`. -/
def rowHeightFinal (config : LayoutConfig) (row : List UploadedImage) (isLast : Bool) : ℚ :=
  if isLast ∧ rowHeightRaw config row > targetRowHeight config * (3/2) then targetRowHeight config
  else rowHeightRaw config row

/-! Helper lemmas about the placement loop `placeRow`. -/

theorem placeRow_length (gap rowHeight currentY : ℚ) (row : List UploadedImage) (x : ℚ) :
    (placeRow gap rowHeight currentY row x).length = row.length := by
  induction row generalizing x with
  | nil => rfl
  | cons img rest ih => simp [placeRow, ih]

theorem placeRow_height_mem (gap rowHeight currentY : ℚ) (row : List UploadedImage) (x : ℚ) :
    ∀ p ∈ placeRow gap rowHeight currentY row x, p.height = rowHeight := by
  induction row generalizing x with
  | nil => intro p hp; simp [placeRow] at hp
  | cons img rest ih =>
      intro p hp
      simp only [placeRow, List.mem_cons] at hp
      rcases hp with h | h
      · simp [h]
      · exact ih _ p h

theorem placeRow_map_width (gap rowHeight currentY : ℚ) (row : List UploadedImage) (x : ℚ) :
    (placeRow gap rowHeight currentY row x).map PositionedImage.width
      = row.map (fun img => rowHeight * img.aspectRatio) := by
  induction row generalizing x with
  | nil => rfl
  | cons img rest ih => simp [placeRow, ih]

theorem rowAspectSum_pos (row : List UploadedImage) (hne : row ≠ [])
    (hAR : ∀ img ∈ row, 0 < img.aspectRatio) :
    0 < (row.map UploadedImage.aspectRatio).sum := by
  apply List.sum_pos
  · intro r hr
    rcases List.mem_map.mp hr with ⟨img, hm, rfl⟩
    exact hAR img hm
  · simpa using hne

theorem processRow_eq (config : LayoutConfig) (currentY : ℚ) (row : List UploadedImage)
    (isLast : Bool) (hne : row ≠ []) :
    processRow config currentY row isLast =
      (placeRow config.gap (rowHeightFinal config row isLast) currentY row config.gap,
        currentY + rowHeightFinal config row isLast + config.gap) := by
  unfold processRow rowHeightFinal rowHeightRaw
  rw [if_neg hne]

/-- C4: for a finalized row that is not clamped by the last-row exception,
the height of every placement is `(canvasSize - (n+1)·gap) / Σ aspectRatio`, and
the item widths of the row together with the `n+1` gaps exactly fill
`canvasSize`. -/
theorem processRow_justified_fill (config : LayoutConfig) (currentY : ℚ)
    (row : List UploadedImage) (isLast : Bool) (hne : row ≠ [])
    (hAR : ∀ img ∈ row, 0 < img.aspectRatio)
    (hnc : isLast = false ∨
      ¬ (rowHeightRaw config row > targetRowHeight config * (3/2))) :
    (∀ p ∈ (processRow config currentY row isLast).1, p.height = rowHeightRaw config row) ∧
    ((processRow config currentY row isLast).1.map PositionedImage.width).sum
        + ((row.length : ℚ) + 1) * config.gap = config.canvasSize := by
  have hsum : 0 < (row.map UploadedImage.aspectRatio).sum := rowAspectSum_pos row hne hAR
  have hcond : ¬ (isLast = true ∧ rowHeightRaw config row > targetRowHeight config * (3/2)) := by
    rcases hnc with h | h
    · intro hc
      rw [h] at hc
      exact Bool.false_ne_true hc.1
    · intro hc
      exact h hc.2
  have hfin : rowHeightFinal config row isLast = rowHeightRaw config row := by
    unfold rowHeightFinal
    rw [if_neg hcond]
  rw [processRow_eq config currentY row isLast hne, hfin]
  constructor
  · exact placeRow_height_mem config.gap (rowHeightRaw config row) currentY row config.gap
  · rw [placeRow_map_width, List.sum_map_mul_left, rowHeightRaw,
      div_mul_cancel₀ _ (ne_of_gt hsum)]
    ring

/-- Witness for C4: a two-item unit-aspect row in a 400-wide, gap-free
canvas fills the canvas exactly. -/
theorem processRow_justified_fill_witness :
    ((processRow ⟨400, 0, 1/2⟩ 7 [⟨0, 1⟩, ⟨1, 1⟩] false).1.map PositionedImage.width).sum
        + ((([⟨0, 1⟩, ⟨1, 1⟩] : List UploadedImage).length : ℚ) + 1)
          * (⟨400, 0, 1/2⟩ : LayoutConfig).gap
      = (⟨400, 0, 1/2⟩ : LayoutConfig).canvasSize :=
  (processRow_justified_fill ⟨400, 0, 1/2⟩ 7 [⟨0, 1⟩, ⟨1, 1⟩] false (by simp)
    (by simp) (Or.inl rfl)).2

/-- C5: a non-empty trailing row is clamped to exactly `targetRowHeight`
when its justified height exceeds `1.5 × targetRowHeight`, and keeps the
justified height otherwise; one placement is emitted per item. -/
theorem processRow_last_row_clamp (config : LayoutConfig) (currentY : ℚ)
    (row : List UploadedImage) (hne : row ≠ []) :
    ((processRow config currentY row true).1.length = row.length) ∧
    ∀ p ∈ (processRow config currentY row true).1,
      p.height =
        if rowHeightRaw config row > targetRowHeight config * (3/2) then targetRowHeight config
        else rowHeightRaw config row := by
  rw [processRow_eq config currentY row true hne]
  have hfin : rowHeightFinal config row true =
      if rowHeightRaw config row > targetRowHeight config * (3/2) then targetRowHeight config
      else rowHeightRaw config row := by
    unfold rowHeightFinal
    by_cases hc : rowHeightRaw config row > targetRowHeight config * (3/2)
    · rw [if_pos ⟨rfl, hc⟩, if_pos hc]
    · rw [if_neg (fun h => hc h.2), if_neg hc]
  constructor
  · exact placeRow_length _ _ _ _ _
  · intro p hp
    rw [← hfin]
    exact placeRow_height_mem _ _ _ _ _ p hp

/-- Witness for C5: a single unit-aspect trailing item in a 400-wide
canvas with target height 200 would get height 400 > 300, so it is clamped. -/
theorem processRow_last_row_clamp_witness :
    ((processRow ⟨400, 0, 1/2⟩ 0 [⟨0, 1⟩] true).1.length
        = ([⟨0, 1⟩] : List UploadedImage).length) ∧
    ∀ p ∈ (processRow ⟨400, 0, 1/2⟩ 0 [⟨0, 1⟩] true).1,
      p.height =
        if rowHeightRaw ⟨400, 0, 1/2⟩ [⟨0, 1⟩] > targetRowHeight ⟨400, 0, 1/2⟩ * (3/2)
        then targetRowHeight ⟨400, 0, 1/2⟩
        else rowHeightRaw ⟨400, 0, 1/2⟩ [⟨0, 1⟩] :=
  processRow_last_row_clamp ⟨400, 0, 1/2⟩ 0 [⟨0, 1⟩] (by simp)

/-- C1: on the singular matrix `[[1,2],[0,0]]` (a zero row) the solver hits
a zero pivot (`0 ∈ finalPivots`) yet still returns a plain solution vector:
there is no `DegenerateSystem` error path in `solve` at all.  In JavaScript
the divisions by this zero pivot yield `Infinity`/`NaN` entries; in the
rational model division by zero yields `0`, giving the vector `[1, 0]`. -/
theorem solve_zero_pivot_returns_vector :
    (0 : ℚ) ∈ finalPivots [[1, 2], [0, 0]] [1, 2] ∧
    solve [[1, 2], [0, 0]] [1, 2] = [1, 0] := by
  constructor
  · with_unfolding_all exact of_decide_eq_true rfl
  · with_unfolding_all rfl

/-- C2: `calculateLayout` performs no configuration validation: for
`canvasSize = 0` and for `targetRowHeightRatio = 0` it silently returns a
degenerate placement list (zero-sized rectangles) instead of failing with
`InvalidConfig` — no such error exists in the code. -/
theorem calculateLayout_malformed_config_total :
    calculateLayout [⟨0, 1⟩] ⟨0, 0, 1/2⟩ = [⟨⟨0, 1⟩, 0, 0, 0, 0⟩] ∧
    calculateLayout [⟨0, 1⟩] ⟨400, 0, 0⟩ = [⟨⟨0, 1⟩, 0, 0, 0, 0⟩] := by
  constructor
  · with_unfolding_all rfl
  · with_unfolding_all rfl

/-- C3: four unit-aspect items in a 400-wide, gap-free canvas with target
row height 200 produce exactly four 200×200 placements in two rows of two,
at `y = 0` and `y = 200`. -/
theorem calculateLayout_four_unit_items :
    calculateLayout [⟨0, 1⟩, ⟨1, 1⟩, ⟨2, 1⟩, ⟨3, 1⟩] ⟨400, 0, 1/2⟩ =
      [⟨⟨0, 1⟩, 0, 0, 200, 200⟩, ⟨⟨1, 1⟩, 200, 0, 200, 200⟩,
       ⟨⟨2, 1⟩, 0, 200, 200, 200⟩, ⟨⟨3, 1⟩, 200, 200, 200, 200⟩] := by
  with_unfolding_all rfl

/-- C8: mapping the unit square to itself yields the identity homography
`[1, 0, 0, 0, 1, 0, 0, 0, 1]`. -/
theorem getHomographyMatrix_unit_square_id :
    getHomographyMatrix [⟨0, 0⟩, ⟨1, 0⟩, ⟨1, 1⟩, ⟨0, 1⟩] [⟨0, 0⟩, ⟨1, 0⟩, ⟨1, 1⟩, ⟨0, 1⟩]
      = [1, 0, 0, 0, 1, 0, 0, 0, 1] := by
  with_unfolding_all rfl

/-- Counterexample to C9 as stated: the solver does not leave the arguments of the caller
arguments unchanged — for `A = [[1,2],[3,4]]`, `b = [5,6]` the arrays the
caller passed in hold different values after the call. -/
theorem solve_args_changed_cex :
    forwardElim [[1, 2], [3, 4]] [5, 6] ≠ ([[1, 2], [3, 4]], [5, 6]) := by
  with_unfolding_all exact of_decide_eq_true rfl

/-- C9 (amended): the solver overwrites the arrays `A` and `b` of the caller in place
with the forward-eliminated (pivoted, upper-triangular) system while
returning the solution vector; concretely for `A = [[1,2],[3,4]]`,
`b = [5,6]` the arrays end as `[[3,4],[0,2/3]]` and `[6,3]` and the result
is `[-4, 9/2]`. -/
theorem solve_overwrites_args_concrete :
    forwardElim [[1, 2], [3, 4]] [5, 6] = ([[3, 4], [0, 2/3]], [6, 3]) ∧
    solve [[1, 2], [3, 4]] [5, 6] = [-4, 9/2] := by
  constructor
  · with_unfolding_all rfl
  · with_unfolding_all rfl

/-- Counterexample to C6 as stated: with a single unit-aspect item,
`canvasSize = 400`, `gap = 300`, `targetRowHeightRatio = 1/2` — all within
the hypotheses of the claim — the produced placement has width `-200 < 0`
(the `(n+1)·gap` total exceeds the canvas, so `availableWidth` is
negative). -/
theorem placement_nonneg_cex :
    (0 : ℚ) < 1 ∧ (0 : ℚ) < 400 ∧ (0 : ℚ) ≤ 300 ∧
    (0 : ℚ) < 1/2 ∧ (1 : ℚ)/2 ≤ 1 ∧
    calculateLayout [⟨0, 1⟩] ⟨400, 300, 1/2⟩ = [⟨⟨0, 1⟩, 300, 300, -200, -200⟩] ∧
    ¬ rectNonneg ⟨⟨0, 1⟩, 300, 300, -200, -200⟩ := by
  with_unfolding_all exact of_decide_eq_true rfl

/-- C7: a destination pixel whose inverse-mapped source coordinate falls
outside `[0, sw-1) × [0, sh-1)` is left at the zero-initialized value
(alpha `0`); otherwise its RGB channels are the bilinear weighted sums of
the four neighbouring source samples and its alpha is forced to `255`. -/
theorem warpPixel_bounds_alpha (H : List ℚ) (sw sh : Nat) (sData : Nat → ℚ) (x y : Nat) :
    (¬ inSourceBounds sw sh (srcU H x y) (srcV H x y) →
        warpPixel H sw sh sData x y = initPixel) ∧
    (inSourceBounds sw sh (srcU H x y) (srcV H x y) →
        warpPixel H sw sh sData x y =
          { r := bilinearChannel sData sw (srcU H x y) (srcV H x y) 0
            g := bilinearChannel sData sw (srcU H x y) (srcV H x y) 1
            b := bilinearChannel sData sw (srcU H x y) (srcV H x y) 2
            a := 255 }) := by
  constructor
  · intro h
    simp only [warpPixel]
    rw [if_neg h]
  · intro h
    simp only [warpPixel, bilinearChannel]
    rw [if_pos h]
    simp

/-- Witness for C7: with the identity homography, a 3×3 source, and the
flat-index source buffer `n ↦ n`, destination pixel `(1,1)` maps in bounds
and is sampled with alpha `255`. -/
theorem warpPixel_bounds_alpha_witness :
    inSourceBounds 3 3 (srcU [1, 0, 0, 0, 1, 0, 0, 0, 1] 1 1)
        (srcV [1, 0, 0, 0, 1, 0, 0, 0, 1] 1 1) ∧
    warpPixel [1, 0, 0, 0, 1, 0, 0, 0, 1] 3 3 (fun n => (n : ℚ)) 1 1 =
      { r := bilinearChannel (fun n => (n : ℚ)) 3 (srcU [1, 0, 0, 0, 1, 0, 0, 0, 1] 1 1)
               (srcV [1, 0, 0, 0, 1, 0, 0, 0, 1] 1 1) 0
        g := bilinearChannel (fun n => (n : ℚ)) 3 (srcU [1, 0, 0, 0, 1, 0, 0, 0, 1] 1 1)
               (srcV [1, 0, 0, 0, 1, 0, 0, 0, 1] 1 1) 1
        b := bilinearChannel (fun n => (n : ℚ)) 3 (srcU [1, 0, 0, 0, 1, 0, 0, 0, 1] 1 1)
               (srcV [1, 0, 0, 0, 1, 0, 0, 0, 1] 1 1) 2
        a := 255 } :=
  And.intro (by with_unfolding_all exact of_decide_eq_true rfl)
    ((warpPixel_bounds_alpha [1, 0, 0, 0, 1, 0, 0, 0, 1] 3 3 (fun n => (n : ℚ)) 1 1).2
      (by with_unfolding_all exact of_decide_eq_true rfl))

/-- C10: if pushing the final input item makes `widthAtTargetHeight` reach
`canvasSize`, that trailing row is flushed inside the loop with
`isLastRow = false`, the loop ends with an empty pending row, and
`calculateLayout` returns the placements of the loop unchanged — the last-row
policy is never applied. -/
theorem trailing_flushed_row_not_last (config : LayoutConfig)
    (init : List UploadedImage) (last : UploadedImage)
    (h : widthAtTargetHeight config
          ((init.foldl (calcStep config) ⟨[], [], config.gap⟩).currentRow ++ [last])
        ≥ config.canvasSize) :
    ((init ++ [last]).foldl (calcStep config) ⟨[], [], config.gap⟩).currentRow = [] ∧
    calculateLayout (init ++ [last]) config
      = ((init ++ [last]).foldl (calcStep config) ⟨[], [], config.gap⟩).layout ∧
    ((init ++ [last]).foldl (calcStep config) ⟨[], [], config.gap⟩).layout
      = (init.foldl (calcStep config) ⟨[], [], config.gap⟩).layout
        ++ (processRow config (init.foldl (calcStep config) ⟨[], [], config.gap⟩).currentY
            ((init.foldl (calcStep config) ⟨[], [], config.gap⟩).currentRow ++ [last]) false).1 := by
  set st := init.foldl (calcStep config) ⟨[], [], config.gap⟩ with hst
  have hfold : (init ++ [last]).foldl (calcStep config) ⟨[], [], config.gap⟩
      = calcStep config st last := by
    rw [List.foldl_append, List.foldl_cons, List.foldl_nil, hst]
  have hstep : calcStep config st last =
      ⟨st.layout ++ (processRow config st.currentY (st.currentRow ++ [last]) false).1, [],
        (processRow config st.currentY (st.currentRow ++ [last]) false).2⟩ := by
    simp only [calcStep]
    rw [if_pos h]
  refine ⟨by rw [hfold, hstep], ?_, by rw [hfold, hstep]⟩
  unfold calculateLayout
  rw [if_neg (by simp : ¬ init ++ [last] = [])]
  rw [hfold, hstep]
  rfl

theorem placeRow_nonneg (gap rowHeight currentY : ℚ)
    (hgap : 0 ≤ gap) (hrh : 0 ≤ rowHeight) (hy : 0 ≤ currentY) :
    ∀ (row : List UploadedImage), (∀ img ∈ row, 0 < img.aspectRatio) →
      ∀ (x : ℚ), 0 ≤ x → ∀ p ∈ placeRow gap rowHeight currentY row x, rectNonneg p := by
  intro row
  induction row with
  | nil =>
      intro _ x _ p hp
      simp [placeRow] at hp
  | cons img rest ih =>
      intro hAR x hx p hp
      simp only [placeRow, List.mem_cons] at hp
      rcases hp with rfl | hmem
      · exact ⟨hx, hy, mul_nonneg hrh (le_of_lt (hAR img (List.mem_cons_self _ _))), hrh⟩
      · exact ih (fun i hi => hAR i (List.mem_cons_of_mem _ hi))
          (x + rowHeight * img.aspectRatio + gap)
          (add_nonneg
            (add_nonneg hx (mul_nonneg hrh (le_of_lt (hAR img (List.mem_cons_self _ _)))))
            hgap)
          p hmem

theorem processRow_nonneg (config : LayoutConfig) (currentY : ℚ) (row : List UploadedImage)
    (isLast : Bool) (hgap : 0 ≤ config.gap) (hy : 0 ≤ currentY)
    (hAR : ∀ img ∈ row, 0 < img.aspectRatio)
    (htrh : 0 ≤ targetRowHeight config)
    (hbound : ((row.length : ℚ) + 1) * config.gap ≤ config.canvasSize) :
    (∀ p ∈ (processRow config currentY row isLast).1, rectNonneg p) ∧
    0 ≤ (processRow config currentY row isLast).2 := by
  by_cases hne : row = []
  · subst hne
    constructor
    · intro p hp
      simp [processRow] at hp
    · simpa [processRow] using hy
  · have hsum := rowAspectSum_pos row hne hAR
    have hraw : 0 ≤ rowHeightRaw config row := by
      apply div_nonneg _ (le_of_lt hsum)
      have : ((row.length : ℚ) + 1) * config.gap ≤ config.canvasSize := hbound
      linarith
    have hfin : 0 ≤ rowHeightFinal config row isLast := by
      unfold rowHeightFinal
      split
      · exact htrh
      · exact hraw
    rw [processRow_eq config currentY row isLast hne]
    exact ⟨placeRow_nonneg config.gap _ currentY hgap hfin hy row hAR config.gap hgap,
      add_nonneg (add_nonneg hy hfin) hgap⟩

theorem foldl_calcStep_inv (config : LayoutConfig) (N : Nat)
    (hgap : 0 ≤ config.gap) (htrh : 0 ≤ targetRowHeight config)
    (hN : ((N : ℚ) + 1) * config.gap ≤ config.canvasSize) :
    ∀ (l : List UploadedImage) (st : LayoutState),
      (∀ img ∈ l, 0 < img.aspectRatio) →
      (∀ img ∈ st.currentRow, 0 < img.aspectRatio) →
      (∀ p ∈ st.layout, rectNonneg p) →
      0 ≤ st.currentY →
      st.currentRow.length + l.length ≤ N →
      (∀ p ∈ (l.foldl (calcStep config) st).layout, rectNonneg p) ∧
      (∀ img ∈ (l.foldl (calcStep config) st).currentRow, 0 < img.aspectRatio) ∧
      0 ≤ (l.foldl (calcStep config) st).currentY ∧
      (l.foldl (calcStep config) st).currentRow.length ≤ N := by
  intro l
  induction l with
  | nil =>
      intro st _ h2 h3 h4 h5
      exact ⟨h3, h2, h4, by simpa using h5⟩
  | cons img rest ih =>
      intro st hl hrow hlay hy hlen
      rw [List.foldl_cons]
      have hrow1 : ∀ i ∈ st.currentRow ++ [img], 0 < i.aspectRatio := by
        intro i hi
        rcases List.mem_append.mp hi with h | h
        · exact hrow i h
        · rcases List.mem_singleton.mp h with rfl
          exact hl _ (List.mem_cons_self _ _)
      have hlrest : ∀ i ∈ rest, 0 < i.aspectRatio :=
        fun i hi => hl i (List.mem_cons_of_mem _ hi)
      by_cases hc : widthAtTargetHeight config (st.currentRow ++ [img]) ≥ config.canvasSize
      · have hlen1 : (st.currentRow ++ [img]).length ≤ N := by
          simp only [List.length_append, List.length_singleton]
          simp only [List.length_cons] at hlen
          omega
        have hb : (((st.currentRow ++ [img]).length : ℚ) + 1) * config.gap
            ≤ config.canvasSize := by
          refine le_trans (mul_le_mul_of_nonneg_right ?_ hgap) hN
          have := (Nat.cast_le (α := ℚ)).mpr hlen1
          linarith
        have hpr := processRow_nonneg config st.currentY (st.currentRow ++ [img]) false
          hgap hy hrow1 htrh hb
        have hstep : calcStep config st img =
            ⟨st.layout ++ (processRow config st.currentY (st.currentRow ++ [img]) false).1, [],
              (processRow config st.currentY (st.currentRow ++ [img]) false).2⟩ := by
          simp only [calcStep]
          rw [if_pos hc]
        rw [hstep]
        apply ih
        · exact hlrest
        · intro i hi
          simp at hi
        · intro p hp
          rcases List.mem_append.mp hp with h | h
          · exact hlay p h
          · exact hpr.1 p h
        · exact hpr.2
        · simp only [List.length_nil]
          simp only [List.length_cons] at hlen
          omega
      · have hstep : calcStep config st img =
            ⟨st.layout, st.currentRow ++ [img], st.currentY⟩ := by
          simp only [calcStep]
          rw [if_neg hc]
        rw [hstep]
        apply ih
        · exact hlrest
        · exact hrow1
        · exact hlay
        · exact hy
        · simp only [List.length_append, List.length_singleton]
          simp only [List.length_cons] at hlen
          omega

/-- C6 (amended): under the hypotheses of the claim plus the additional bound
`(number of items + 1) · gap ≤ canvasSize` (forced by the counterexample,
where a large gap makes `availableWidth` — and hence widths and heights —
negative), every placement has non-negative `x`, `y`, `width`, `height`. -/
theorem calculateLayout_placements_nonneg (images : List UploadedImage)
    (config : LayoutConfig)
    (hAR : ∀ img ∈ images, 0 < img.aspectRatio)
    (hcs : 0 < config.canvasSize) (hgap : 0 ≤ config.gap)
    (hr1 : 0 < config.targetRowHeightRatio) (hr2 : config.targetRowHeightRatio ≤ 1)
    (hbound : ((images.length : ℚ) + 1) * config.gap ≤ config.canvasSize) :
    ∀ p ∈ calculateLayout images config, rectNonneg p := by
  have htrh : 0 ≤ targetRowHeight config := le_of_lt (mul_pos hcs hr1)
  by_cases hni : images = []
  · subst hni
    intro p hp
    simp [calculateLayout] at hp
  · unfold calculateLayout
    rw [if_neg hni]
    have hinv := foldl_calcStep_inv config images.length hgap htrh hbound images
      ⟨[], [], config.gap⟩ hAR (by intro i hi; simp at hi) (by intro p hp; simp at hp)
      hgap (by simp)
    set st := images.foldl (calcStep config) ⟨[], [], config.gap⟩ with hst
    by_cases hcr : st.currentRow = []
    · rw [if_pos hcr]
      exact hinv.1
    · rw [if_neg hcr]
      intro p hp
      rcases List.mem_append.mp hp with h | h
      · exact hinv.1 p h
      · have hb : ((st.currentRow.length : ℚ) + 1) * config.gap ≤ config.canvasSize := by
          refine le_trans (mul_le_mul_of_nonneg_right ?_ hgap) hbound
          have := (Nat.cast_le (α := ℚ)).mpr hinv.2.2.2
          linarith
        exact (processRow_nonneg config st.currentY st.currentRow true hgap hinv.2.2.1
          hinv.2.1 htrh hb).1 p h

/-- Witness for C6 (amended): two items with aspect ratios 1 and 2 in a
400-wide canvas with gap 10 — the total-gap bound holds, and all produced
rectangles are non-negative. -/
theorem calculateLayout_placements_nonneg_witness :
    ((((([⟨0, 1⟩, ⟨1, 2⟩] : List UploadedImage).length : ℚ) + 1) * (10 : ℚ) ≤ 400) ∧
    ∀ p ∈ calculateLayout [⟨0, 1⟩, ⟨1, 2⟩] ⟨400, 10, 1/2⟩, rectNonneg p) :=
  And.intro (by with_unfolding_all exact of_decide_eq_true rfl)
    (calculateLayout_placements_nonneg [⟨0, 1⟩, ⟨1, 2⟩] ⟨400, 10, 1/2⟩
      (by intro img hi; fin_cases hi <;> norm_num)
      (by norm_num) (by norm_num) (by norm_num) (by norm_num)
      (by with_unfolding_all exact of_decide_eq_true rfl))

/-- Witness for C10: with four unit-aspect items in the 400-wide gap-free
config, the fourth item completes the second row exactly, so the loop ends
flushed and no last-row processing happens. -/
theorem trailing_flushed_row_not_last_witness :
    (([⟨0, 1⟩, ⟨1, 1⟩, ⟨2, 1⟩] ++ [⟨3, 1⟩] :
        List UploadedImage).foldl (calcStep ⟨400, 0, 1/2⟩) ⟨[], [], (0 : ℚ)⟩).currentRow = [] ∧
    calculateLayout ([⟨0, 1⟩, ⟨1, 1⟩, ⟨2, 1⟩] ++ [⟨3, 1⟩]) ⟨400, 0, 1/2⟩
      = (([⟨0, 1⟩, ⟨1, 1⟩, ⟨2, 1⟩] ++ [⟨3, 1⟩] :
          List UploadedImage).foldl (calcStep ⟨400, 0, 1/2⟩) ⟨[], [], (0 : ℚ)⟩).layout ∧
    (([⟨0, 1⟩, ⟨1, 1⟩, ⟨2, 1⟩] ++ [⟨3, 1⟩] :
        List UploadedImage).foldl (calcStep ⟨400, 0, 1/2⟩) ⟨[], [], (0 : ℚ)⟩).layout
      = (([⟨0, 1⟩, ⟨1, 1⟩, ⟨2, 1⟩] :
          List UploadedImage).foldl (calcStep ⟨400, 0, 1/2⟩) ⟨[], [], (0 : ℚ)⟩).layout
        ++ (processRow ⟨400, 0, 1/2⟩
            (([⟨0, 1⟩, ⟨1, 1⟩, ⟨2, 1⟩] :
              List UploadedImage).foldl (calcStep ⟨400, 0, 1/2⟩) ⟨[], [], (0 : ℚ)⟩).currentY
            ((([⟨0, 1⟩, ⟨1, 1⟩, ⟨2, 1⟩] :
              List UploadedImage).foldl (calcStep ⟨400, 0, 1/2⟩) ⟨[], [], (0 : ℚ)⟩).currentRow
              ++ [⟨3, 1⟩]) false).1 := by
  with_unfolding_all
    exact trailing_flushed_row_not_last ⟨400, 0, 1/2⟩ [⟨0, 1⟩, ⟨1, 1⟩, ⟨2, 1⟩] ⟨3, 1⟩
      (of_decide_eq_true rfl)

end PW
